import Mathlib

/-!
Verification of `lamose_leads/scraper.py` (Lamose Lead Scraper) against its
natural-language specification.

The program is shallowly embedded: pure Python functions become Lean
functions over `List Char` / `String`; network fetches become explicit
oracles (functions of URL and timeout returning an exception, an absent
response, or page content), and the calls made to the fetchers are threaded
through as an explicit trace so that properties about *which* fetches occur
can be stated.  Character classes of the email regex are modelled over
ASCII code points (the regex uses explicit ASCII ranges); Python's
`str.lower` / `str.strip` on the matched (ASCII) substrings are modelled as
`Char.toLower` and whitespace trimming over `List Char`.  Wall-clock
timestamps (`scraped_at`) and console printing are outside the model.
-/

namespace Scraper

/-! ### Email regex `EMAIL_RE = [a-zA-Z0-9._%+\-]+@[a-zA-Z0-9.\-]+\.[a-zA-Z]{2,}`

`isAChar` is the local-part class `[a-zA-Z0-9._%+\-]`, `isBChar` the domain
class `[a-zA-Z0-9.\-]`, `isCChar` the tld class `[a-zA-Z]`, written via
ASCII code points (46 `.`, 95 `_`, 37 `%`, 43 `+`, 45 `-`).  The
`re.IGNORECASE` flag is redundant for this pattern: each class already
contains both cases. -/

def isAChar (c : Char) : Bool :=
  decide ((65 ≤ c.toNat ∧ c.toNat ≤ 90) ∨ (97 ≤ c.toNat ∧ c.toNat ≤ 122) ∨
    (48 ≤ c.toNat ∧ c.toNat ≤ 57) ∨ c.toNat = 46 ∨ c.toNat = 95 ∨
    c.toNat = 37 ∨ c.toNat = 43 ∨ c.toNat = 45)

def isBChar (c : Char) : Bool :=
  decide ((65 ≤ c.toNat ∧ c.toNat ≤ 90) ∨ (97 ≤ c.toNat ∧ c.toNat ≤ 122) ∨
    (48 ≤ c.toNat ∧ c.toNat ≤ 57) ∨ c.toNat = 46 ∨ c.toNat = 45)

def isCChar (c : Char) : Bool :=
  decide ((65 ≤ c.toNat ∧ c.toNat ≤ 90) ∨ (97 ≤ c.toNat ∧ c.toNat ≤ 122))

/-- Backtracking search of the `[B]+\.[C]{2,}` part of the regex after the
`@`: the greedy `[B]+` first consumes the maximal run of B-characters and
then gives characters back one at a time, so the engine settles on the
*largest* `j ≥ 1` such that `rest[j] = '.'` and at least two letters follow
position `j`.  `findDot rest n` tries `j = n, n-1, …, 1`. -/
def findDot (rest : List Char) : Nat → Option Nat
  | 0 => none
  | j + 1 =>
    if rest.get? (j + 1) = some '.' ∧
        2 ≤ ((rest.drop (j + 2)).takeWhile isCChar).length then
      some (j + 1)
    else
      findDot rest j

/-- One attempt of `EMAIL_RE` anchored at the head of `cs`, as the Python
`re` engine performs it: the greedy `[A]+` consumes the maximal run of
A-characters (a shorter amount is always followed by another A-character,
never by `@`, so backtracking cannot help it), then `@`, then `findDot`
resolves the domain part; the greedy `[C]{2,}` consumes the maximal letter
run after the chosen dot.  Returns the matched characters and the remainder
of the input after the match (`findall` resumes scanning there). -/
def matchAt (cs : List Char) : Option (List Char × List Char) :=
  let loc := cs.takeWhile isAChar
  if loc.isEmpty then none
  else
    match cs.drop loc.length with
    | '@' :: rest =>
      match findDot rest (rest.takeWhile isBChar).length with
      | some j =>
        let tld := (rest.drop (j + 1)).takeWhile isCChar
        some (loc ++ '@' :: rest.take j ++ '.' :: tld,
              rest.drop (j + 1 + tld.length))
      | none => none
    | _ => none

/-- `EMAIL_RE.findall`: scan left to right; on a match, emit it and resume
after the match (non-overlapping); on failure advance one character.  Each
step consumes at least one character, so `fuel = cs.length` suffices. -/
def findEmailsGo : Nat → List Char → List (List Char)
  | 0, _ => []
  | _ + 1, [] => []
  | fuel + 1, c :: cs =>
    match matchAt (c :: cs) with
    | some (m, rest) => m :: findEmailsGo fuel rest
    | none => findEmailsGo fuel cs

def findEmails (cs : List Char) : List (List Char) :=
  findEmailsGo cs.length cs

/-! ### `clean_emails` -/

/-- The `SKIP_DOMAINS` denylist, as character lists. -/
def SKIP_DOMAINS : List (List Char) :=
  ["example.com".data, "sentry.io".data, "wix.com".data, "squarespace.com".data,
   "wordpress.com".data, "shopify.com".data, "gmail.com".data, "yahoo.com".data,
   "hotmail.com".data, "placeholder.com".data, "yourdomain.com".data]

/-- Python `str.lower`, on the ASCII substrings the regex can match. -/
def lowerChars (cs : List Char) : List Char :=
  cs.map Char.toLower

/-- Python `str.strip`: drop leading and trailing whitespace. -/
def trimChars (cs : List Char) : List Char :=
  ((cs.dropWhile Char.isWhitespace).reverse.dropWhile Char.isWhitespace).reverse

/-- `e.lower().strip()` from `clean_emails`. -/
def normalizeEmail (cs : List Char) : List Char :=
  trimChars (lowerChars cs)

/-- `e.split("@")[-1]`: the suffix after the last `@` (the whole string
when no `@` occurs), which is exactly what Python's split gives. -/
def domainOf (cs : List Char) : List Char :=
  (cs.reverse.takeWhile (fun c => c ≠ '@')).reverse

/-- The loop of `clean_emails`, with the `seen` set made explicit. -/
def cleanGo (seen : List (List Char)) : List (List Char) → List (List Char)
  | [] => []
  | e :: rest =>
    if domainOf (normalizeEmail e) ∈ SKIP_DOMAINS then cleanGo seen rest
    else if normalizeEmail e ∈ seen then cleanGo seen rest
    else normalizeEmail e :: cleanGo (normalizeEmail e :: seen) rest

def clean_emails (raw : List (List Char)) : List (List Char) :=
  cleanGo [] raw

/-- `extract_emails(text) = clean_emails(EMAIL_RE.findall(text))`. -/
def extract_emails (s : String) : List String :=
  (clean_emails (findEmails s.data)).map (fun l => String.mk l)

/-! ### Specification-side helpers for C3/C4 -/

/-- Order-preserving deduplication in which the first occurrence wins:
the reference function against which the `seen`-set loop of `clean_emails`
is compared. -/
def dedupFirst {α : Type} [DecidableEq α] : List α → List α
  | [] => []
  | a :: l => a :: dedupFirst (l.filter (fun x => x ≠ a))
termination_by l => l.length
decreasing_by
  simpa using Nat.lt_succ_of_le (List.length_filter_le _ _)

/-- The email shape rule of the spec: a local part of one or more
characters from `[a-zA-Z0-9._%+\-]`, an `@`, one or more domain-label
characters from `[a-zA-Z0-9.\-]`, a dot, and a final label of at least two
letters. -/
def EmailShape (cs : List Char) : Prop :=
  ∃ loc pre tld : List Char,
    cs = loc ++ '@' :: pre ++ '.' :: tld ∧
    loc ≠ [] ∧ (∀ c ∈ loc, isAChar c) ∧
    pre ≠ [] ∧ (∀ c ∈ pre, isBChar c) ∧
    2 ≤ tld.length ∧ (∀ c ∈ tld, isCChar c)

/-! ### The Website Scraper `scrape_websites`

Network fetches are an oracle from URL and timeout to a result: `exn`
(the fetch raised), `noResp` (the fetch returned `None`), or `page c`
(a response whose `html_content` is `c`).  The list of `fetcher.get`
calls actually made, `(url, timeout)` in order, is returned alongside the
records, so that claims about which fetches occur can be stated. -/

inductive FetchResult where
  | exn
  | noResp
  | page (content : String)
deriving DecidableEq

/-- A `Fetcher` as used by `scrape_websites`: `f url timeout` is the
outcome of `fetcher.get(url, timeout=timeout)`. -/
def Oracle : Type := String → Nat → FetchResult

/-- A Lead Record as built by `scrape_websites` (lines 81-86 and 91-96);
`scraped_at` is a wall-clock timestamp and is not modelled. -/
structure LeadRecord where
  source : String
  emails : String
  email_count : Nat
deriving DecidableEq

/-- The record dict literal: `emails` joined with `", "` (joining the empty
list gives `""`, which is also what the `if emails else ""` produces), and
`email_count = len(emails)`. -/
def mkRecord (url : String) (es : List String) : LeadRecord :=
  { source := url, emails := String.intercalate ", " es, email_count := es.length }

/-- `url.strip()`. -/
def strS (s : String) : String :=
  String.mk (trimChars s.data)

/-- `url.rstrip("/")`. -/
def rstripSlash (s : String) : String :=
  String.mk ((s.data.reverse.dropWhile (fun c => c = '/')).reverse)

/-- `url.rstrip("/").endswith("/contact")`. -/
def endsWithContact (s : String) : Bool :=
  "/contact".data.isSuffixOf (rstripSlash s).data

/-- `url.rstrip("/") + "/contact"`. -/
def contactUrl (s : String) : String :=
  String.mk ((rstripSlash s).data ++ "/contact".data)

/-- The body of the `for url in urls` loop of `scrape_websites` for one
already-stripped, non-blank URL: primary fetch with timeout 15; on `None`
print-and-`continue` (no record); on an exception a record with no emails;
otherwise extract emails and, when none were found and the URL does not
already end in `/contact`, attempt the contact-page fallback with timeout
10, whose own exceptions are swallowed.  Returns the record emitted for
this URL (if any) and the fetch calls made. -/
def processUrl (f : Oracle) (url : String) :
    Option LeadRecord × List (String × Nat) :=
  match f url 15 with
  | .exn => (some (mkRecord url []), [(url, 15)])
  | .noResp => (none, [(url, 15)])
  | .page content =>
    if extract_emails content = [] ∧ endsWithContact url = false then
      match f (contactUrl url) 10 with
      | .exn => (some (mkRecord url []), [(url, 15), (contactUrl url, 10)])
      | .noResp => (some (mkRecord url []), [(url, 15), (contactUrl url, 10)])
      | .page c2 =>
        (some (mkRecord url (extract_emails c2)), [(url, 15), (contactUrl url, 10)])
    else
      (some (mkRecord url (extract_emails content)), [(url, 15)])

/-- `scrape_websites`, with the fetch-call trace: strip each URL, skip the
blank ones, and process the rest in order. -/
def scrape_websitesT (f : Oracle) : List String → List LeadRecord × List (String × Nat)
  | [] => ([], [])
  | u :: rest =>
    if strS u = "" then scrape_websitesT f rest
    else
      ((processUrl f (strS u)).1.toList ++ (scrape_websitesT f rest).1,
       (processUrl f (strS u)).2 ++ (scrape_websitesT f rest).2)

def scrape_websites (f : Oracle) (urls : List String) : List LeadRecord :=
  (scrape_websitesT f urls).1

/-! ### The Search Collector `scrape_google_search`

The stealth fetcher for search pages is a second oracle whose successful
result is the list of `href` values of the page's `a[href]` elements, in
document order (`page.css("a[href]")` followed by `link.attrib.get("href")
or ""`). -/

inductive SearchResult where
  | exn
  | noResp
  | page (hrefs : List String)
deriving DecidableEq

def SearchOracle : Type := String → Nat → SearchResult

/-- Substring containment, `needle in hay` of Python. -/
def containsSub (needle : List Char) : List Char → Bool
  | [] => needle.isEmpty
  | c :: t => needle.isPrefixOf (c :: t) || containsSub needle t

/-- `query.replace(" ", "+")` — the pattern is a single character, so the
replacement is a character map. -/
def plusify (q : String) : String :=
  String.mk (q.data.map (fun c => if c = ' ' then '+' else c))

/-- The search URL of page offset `start`. -/
def searchUrl (query : String) (start : Nat) : String :=
  "https://www.google.com/search?q=" ++ plusify query ++ "&start=" ++ toString start

/-- The link filter: `href.startswith("http") and "google.com" not in href`. -/
def qualifies (href : String) : Bool :=
  "http".data.isPrefixOf href.data && !(containsSub "google.com".data href.data)

/-- One step of the link-harvesting loop: append the link if it qualifies
(the append happens before the limit test). -/
def collectStep (acc : List String) (href : String) : List String :=
  if qualifies href then acc ++ [href] else acc

/-- The inner `for link in links` loop: after each link the running
collection is tested against `limit` and the loop breaks once it has
reached it. -/
def collectLinks (limit : Nat) (acc : List String) : List String → List String
  | [] => acc
  | h :: t =>
    if limit ≤ (collectStep acc h).length then collectStep acc h
    else collectLinks limit (collectStep acc h) t

/-- The `for page_num in range(pages_needed)` loop: `n` pages remain,
`pn` is the current page number.  A fetch that raises or returns `None`
breaks the pagination; otherwise the page's links are harvested and the
loop continues with the next offset.  Returns the collected URLs and the
search fetches made. -/
def googleLoop (g : SearchOracle) (query : String) (limit : Nat) :
    Nat → Nat → List String → List String × List (String × Nat)
  | 0, _, acc => (acc, [])
  | n + 1, pn, acc =>
    match g (searchUrl query (pn * 10)) 20 with
    | .exn => (acc, [(searchUrl query (pn * 10), 20)])
    | .noResp => (acc, [(searchUrl query (pn * 10), 20)])
    | .page hrefs =>
      ((googleLoop g query limit n (pn + 1) (collectLinks limit acc hrefs)).1,
       (searchUrl query (pn * 10), 20) ::
         (googleLoop g query limit n (pn + 1) (collectLinks limit acc hrefs)).2)

/-- `collected_urls` at the end of the pagination loop;
`pages_needed = limit // 10 + 1`. -/
def googleCollected (g : SearchOracle) (query : String) (limit : Nat) : List String :=
  (googleLoop g query limit (limit / 10 + 1) 0 []).1

/-- The search-page fetches performed. -/
def googleSearchTrace (g : SearchOracle) (query : String) (limit : Nat) :
    List (String × Nat) :=
  (googleLoop g query limit (limit / 10 + 1) 0 []).2

/-- `scrape_google_search` with traces: harvest links, truncate with
`[:limit]`, delegate to `scrape_websites`.  (`limit` is modelled as a
natural number; the CLI default is 30.) -/
def scrape_google_searchT (g : SearchOracle) (f : Oracle) (query : String) (limit : Nat) :
    List LeadRecord × List (String × Nat) :=
  ((scrape_websitesT f ((googleCollected g query limit).take limit)).1,
   googleSearchTrace g query limit ++
     (scrape_websitesT f ((googleCollected g query limit).take limit)).2)

def scrape_google_search (g : SearchOracle) (f : Oracle) (query : String) (limit : Nat) :
    List LeadRecord :=
  (scrape_google_searchT g f query limit).1

/-! ### File loader, result writer and command interface -/

/-- Python `str.splitlines` for `\n`-separated text: like `splitOn "\n"`
except that a trailing newline does not contribute a final empty entry. -/
def splitlines (s : String) : List String :=
  if (s.splitOn "\n").getLast? = some "" then (s.splitOn "\n").dropLast
  else s.splitOn "\n"

/-- `save_csv`: nothing is written when there are no results; otherwise the
file at `path` is written with one row per record (the write itself is
represented by the returned pair). -/
def save_csv (results : List LeadRecord) (path : String) :
    Option (String × List LeadRecord) :=
  if results = [] then none else some (path, results)

inductive Source where
  | website
  | google
  | file
deriving DecidableEq

/-- The parsed command line: `urls`, `query` and `file` are `none` when the
flag was not passed (`argparse` default). -/
structure Args where
  source : Source
  urls : Option (List String)
  query : Option String
  limit : Nat
  file : Option String
  output : String

/-- Outcome of a run of `main`: `argError` is the `print + return` path
for a missing mode argument (nothing fetched, nothing written),
`fileError` the unrecovered exception from reading a missing URLs file,
and `completed` carries what `save_csv` wrote (`none` when there were no
records). -/
inductive MainOutcome where
  | argError (msg : String)
  | fileError
  | completed (written : Option (String × List LeadRecord))

/-- `main`: validate the mode argument (Python truthiness: `None`, an
empty list and the empty string are all falsy), run the selected source,
and hand the result to `save_csv`.  The second component is the fetch
trace of the run (website fetches, plus search fetches in google mode). -/
def mainRun (f : Oracle) (g : SearchOracle) (readFile : String → Option String)
    (args : Args) : MainOutcome × List (String × Nat) :=
  match args.source with
  | .website =>
    match args.urls with
    | none => (.argError "Error: --urls required for --source website", [])
    | some [] => (.argError "Error: --urls required for --source website", [])
    | some us =>
      (.completed (save_csv (scrape_websitesT f us).1 args.output),
       (scrape_websitesT f us).2)
  | .google =>
    match args.query with
    | none => (.argError "Error: --query required for --source google", [])
    | some q =>
      if q = "" then (.argError "Error: --query required for --source google", [])
      else
        (.completed (save_csv (scrape_google_searchT g f q args.limit).1 args.output),
         (scrape_google_searchT g f q args.limit).2)
  | .file =>
    match args.file with
    | none => (.argError "Error: --file required for --source file", [])
    | some fp =>
      if fp = "" then (.argError "Error: --file required for --source file", [])
      else
        match readFile fp with
        | none => (.fileError, [])
        | some txt =>
          (.completed (save_csv (scrape_websitesT f (splitlines txt)).1 args.output),
           (scrape_websitesT f (splitlines txt)).2)

/-- The selected source mode's required argument is missing (or falsy,
matching Python truthiness). -/
def missingModeArg (a : Args) : Prop :=
  (a.source = .website ∧ (a.urls = none ∨ a.urls = some [])) ∨
  (a.source = .google ∧ (a.query = none ∨ a.query = some "")) ∨
  (a.source = .file ∧ (a.file = none ∨ a.file = some ""))

/-! ### Concrete oracles used in counterexamples and witnesses -/

/-- Eleven qualifying links, as served on every page by `gEleven`. -/
def elevenLinks : List String :=
  List.replicate 11 "http://site.example"

/-- A search oracle whose every page holds eleven qualifying links. -/
def gEleven : SearchOracle := fun _ _ => SearchResult.page elevenLinks

/-- A search oracle serving fifteen qualifying links on the first `shoes`
page and one more on every other page. -/
def gOverflow : SearchOracle := fun u _ =>
  if u = searchUrl "shoes" 0 then SearchResult.page (List.replicate 15 "http://a.example")
  else SearchResult.page ["http://b.example"]

/-- A search oracle whose every page is empty of links. -/
def gEmptyPages : SearchOracle := fun _ _ => SearchResult.page []

/-- A website fetcher that always raises. -/
def fAllExn : Oracle := fun _ _ => FetchResult.exn

/-- A website fetcher that never gets a response. -/
def fAllNone : Oracle := fun _ _ => FetchResult.noResp

/-- A website fetcher serving an email-free homepage for `http://a.com`
and an email-bearing page elsewhere (in particular on its contact page). -/
def fContactDemo : Oracle := fun u _ =>
  if u = "http://a.com" then FetchResult.page "no leads here"
  else FetchResult.page "write to info@a-corp.io today"

/-- A `--source google` invocation without `--query`. -/
def argsNoQuery : Args :=
  { source := Source.google, urls := none, query := none, limit := 30,
    file := none, output := "leads_output.csv" }

/-! ## Character-level lemmas -/

theorem toNat_ofNat_of_valid {n : Nat} (h : n.isValidChar) :
    (Char.ofNat n).toNat = n := by
  unfold Char.ofNat
  rw [dif_pos h]
  rfl

theorem toLower_toNat (c : Char) :
    (Char.toLower c).toNat =
      if 65 ≤ c.toNat ∧ c.toNat ≤ 90 then c.toNat + 32 else c.toNat := by
  unfold Char.toLower
  by_cases h : 65 ≤ c.toNat ∧ c.toNat ≤ 90
  · rw [if_pos h, if_pos ⟨h.1, h.2⟩]
    exact toNat_ofNat_of_valid (Or.inl (by omega))
  · rw [if_neg h, if_neg (by exact h)]

theorem toLower_fixes {c : Char} (h : ¬(65 ≤ c.toNat ∧ c.toNat ≤ 90)) :
    Char.toLower c = c := by
  unfold Char.toLower
  rw [if_neg (by exact h)]

theorem toLower_toLower (c : Char) :
    Char.toLower (Char.toLower c) = Char.toLower c := by
  apply toLower_fixes
  rw [toLower_toNat]
  by_cases h : 65 ≤ c.toNat ∧ c.toNat ≤ 90
  · rw [if_pos h]; omega
  · rw [if_neg h]; omega

theorem isWhitespace_toNat {c : Char} (h : c.isWhitespace = true) :
    c.toNat = 32 ∨ c.toNat = 9 ∨ c.toNat = 13 ∨ c.toNat = 10 := by
  unfold Char.isWhitespace at h
  simp only [Bool.or_eq_true, decide_eq_true_eq] at h
  rcases h with ((h | h) | h) | h <;> subst h <;> decide

theorem isAChar_toLower {c : Char} (h : isAChar c = true) :
    isAChar (Char.toLower c) = true := by
  unfold isAChar at h ⊢
  rw [decide_eq_true_eq] at h ⊢
  rw [toLower_toNat]
  by_cases hu : 65 ≤ c.toNat ∧ c.toNat ≤ 90
  · rw [if_pos hu]; omega
  · rw [if_neg hu]; omega

theorem isBChar_toLower {c : Char} (h : isBChar c = true) :
    isBChar (Char.toLower c) = true := by
  unfold isBChar at h ⊢
  rw [decide_eq_true_eq] at h ⊢
  rw [toLower_toNat]
  by_cases hu : 65 ≤ c.toNat ∧ c.toNat ≤ 90
  · rw [if_pos hu]; omega
  · rw [if_neg hu]; omega

theorem isCChar_toLower {c : Char} (h : isCChar c = true) :
    isCChar (Char.toLower c) = true := by
  unfold isCChar at h ⊢
  rw [decide_eq_true_eq] at h ⊢
  rw [toLower_toNat]
  by_cases hu : 65 ≤ c.toNat ∧ c.toNat ≤ 90
  · rw [if_pos hu]; omega
  · rw [if_neg hu]; omega

theorem isBChar_isAChar {c : Char} (h : isBChar c = true) : isAChar c = true := by
  unfold isAChar isBChar at *
  rw [decide_eq_true_eq] at h ⊢
  omega

theorem isCChar_isAChar {c : Char} (h : isCChar c = true) : isAChar c = true := by
  unfold isAChar isCChar at *
  rw [decide_eq_true_eq] at h ⊢
  omega

/-- Characters the regex can put in a match are never whitespace, before or
after lowering. -/
theorem toLower_allowed_not_ws {c : Char} (h : isAChar c = true ∨ c = '@') :
    (Char.toLower c).isWhitespace = false := by
  rcases h with h | h
  · have h' := isAChar_toLower h
    unfold isAChar at h'
    rw [decide_eq_true_eq] at h'
    by_contra hw
    rw [Bool.not_eq_false] at hw
    have := isWhitespace_toNat hw
    omega
  · subst h; decide

/-- `dropWhile` is the identity when the head is not dropped. -/
theorem dropWhile_eq_self_of {p : Char → Bool} {cs : List Char}
    (h : ∀ c ∈ cs, p c = false) : cs.dropWhile p = cs := by
  cases cs with
  | nil => rfl
  | cons c t =>
    rw [List.dropWhile_cons, h c (List.mem_cons_self c t)]
    simp

theorem trimChars_eq_self {cs : List Char}
    (h : ∀ c ∈ cs, c.isWhitespace = false) : trimChars cs = cs := by
  unfold trimChars
  rw [dropWhile_eq_self_of h,
    dropWhile_eq_self_of (fun c hc => h c (List.mem_reverse.mp hc)),
    List.reverse_reverse]

/-! ## Shape of regex matches -/

theorem findDot_spec {rest : List Char} :
    ∀ {n j : Nat}, findDot rest n = some j →
      1 ≤ j ∧ j ≤ n ∧ rest.get? j = some '.' ∧
        2 ≤ ((rest.drop (j + 1)).takeWhile isCChar).length := by
  intro n
  induction n with
  | zero => intro j h; simp [findDot] at h
  | succ k ih =>
    intro j h
    unfold findDot at h
    split at h
    case isTrue hc =>
      cases h
      exact ⟨by omega, by omega, hc.1, hc.2⟩
    case isFalse =>
      obtain ⟨h1, h2, h3⟩ := ih h
      exact ⟨h1, by omega, h3⟩

/-- A prefix of the `takeWhile` region satisfies the predicate. -/
theorem take_of_takeWhile_sat {p : Char → Bool} {l : List Char} {j : Nat}
    (hj : j ≤ (l.takeWhile p).length) : ∀ c ∈ l.take j, p c = true := by
  intro c hc
  obtain ⟨t, ht⟩ := (List.takeWhile_prefix p : List.takeWhile p l <+: l)
  have : l.take j = (l.takeWhile p).take j := by
    conv_lhs => rw [← ht]
    rw [List.take_append_of_le_length hj]
  rw [this] at hc
  exact List.mem_takeWhile_imp (List.take_subset j _ hc)

theorem matchAt_shape {cs m rest : List Char}
    (h : matchAt cs = some (m, rest)) : EmailShape m := by
  unfold matchAt at h
  dsimp only at h
  split at h
  · exact absurd h (by simp)
  case isFalse hne =>
    split at h
    case h_1 r heq =>
      split at h
      case h_1 j hdot =>
        obtain ⟨hj1, hj2, hj3, hj4⟩ := findDot_spec hdot
        cases h
        refine ⟨cs.takeWhile isAChar, r.take j, (r.drop (j + 1)).takeWhile isCChar,
          rfl, ?_, ?_, ?_, ?_, hj4, ?_⟩
        · intro hnil; rw [hnil] at hne; exact hne rfl
        · exact fun c hc => List.mem_takeWhile_imp hc
        · have hr : j < r.length := (List.get?_eq_some.mp hj3).1
          intro hnil
          rw [List.take_eq_nil_iff] at hnil
          rcases hnil with h0 | h0
          · omega
          · rw [h0] at hr; simp at hr
        · exact take_of_takeWhile_sat hj2
        · exact fun c hc => List.mem_takeWhile_imp hc
      case h_2 => exact absurd h (by simp)
    case h_2 => exact absurd h (by simp)

/-- Every string emitted by `findall` matches the email shape. -/
theorem findEmailsGo_shape :
    ∀ (fuel : Nat) (cs m : List Char), m ∈ findEmailsGo fuel cs → EmailShape m := by
  intro fuel
  induction fuel with
  | zero => intro cs m hm; simp [findEmailsGo] at hm
  | succ k ih =>
    intro cs m hm
    cases cs with
    | nil => simp [findEmailsGo] at hm
    | cons c t =>
      unfold findEmailsGo at hm
      split at hm
      case h_1 p m' rest heq =>
        rcases List.mem_cons.mp hm with hm | hm
        · subst hm; exact matchAt_shape heq
        · exact ih _ _ hm
      case h_2 => exact ih _ _ hm

theorem findEmails_shape {cs m : List Char} (h : m ∈ findEmails cs) :
    EmailShape m :=
  findEmailsGo_shape _ _ _ h

/-! ## Normalisation preserves the shape and lowercases -/

theorem shape_allowed {m : List Char} (hs : EmailShape m) :
    ∀ c ∈ m, isAChar c = true ∨ c = '@' := by
  obtain ⟨loc, pre, tld, rfl, -, hloc, -, hpre, -, htld⟩ := hs
  intro c hc
  rw [List.mem_append] at hc
  rcases hc with hc | hc
  · rw [List.mem_append] at hc
    rcases hc with hc | hc
    · exact Or.inl (hloc c hc)
    · rcases List.mem_cons.mp hc with hc | hc
      · exact Or.inr hc
      · exact Or.inl (isBChar_isAChar (hpre c hc))
  · rcases List.mem_cons.mp hc with hc | hc
    · subst hc; exact Or.inl (by decide)
    · exact Or.inl (isCChar_isAChar (htld c hc))

theorem lowerChars_shape {m : List Char} (hs : EmailShape m) :
    EmailShape (lowerChars m) := by
  obtain ⟨loc, pre, tld, rfl, h1, h2, h3, h4, h5, h6⟩ := hs
  refine ⟨lowerChars loc, lowerChars pre, lowerChars tld, ?_, ?_, ?_, ?_, ?_, ?_, ?_⟩
  · unfold lowerChars
    simp only [List.map_append, List.map_cons]
    rw [show Char.toLower '@' = '@' from by decide,
      show Char.toLower '.' = '.' from by decide]
  · unfold lowerChars; rw [Ne, List.map_eq_nil_iff]; exact h1
  · intro c hc
    obtain ⟨c0, hc0, rfl⟩ := List.mem_map.mp hc
    exact isAChar_toLower (h2 c0 hc0)
  · unfold lowerChars; rw [Ne, List.map_eq_nil_iff]; exact h3
  · intro c hc
    obtain ⟨c0, hc0, rfl⟩ := List.mem_map.mp hc
    exact isBChar_toLower (h4 c0 hc0)
  · unfold lowerChars; rw [List.length_map]; exact h5
  · intro c hc
    obtain ⟨c0, hc0, rfl⟩ := List.mem_map.mp hc
    exact isCChar_toLower (h6 c0 hc0)

/-- On a regex match, `strip` does nothing and `lower` produces a string
every character of which is fixed by further lowering. -/
theorem normalizeEmail_of_shape {m : List Char} (hs : EmailShape m) :
    normalizeEmail m = lowerChars m ∧ EmailShape (lowerChars m) ∧
      ∀ c ∈ lowerChars m, Char.toLower c = c := by
  refine ⟨?_, lowerChars_shape hs, ?_⟩
  · unfold normalizeEmail
    apply trimChars_eq_self
    intro c hc
    obtain ⟨c0, hc0, rfl⟩ := List.mem_map.mp hc
    exact toLower_allowed_not_ws (shape_allowed hs c0 hc0)
  · intro c hc
    obtain ⟨c0, hc0, rfl⟩ := List.mem_map.mp hc
    exact toLower_toLower c0

/-! ## `clean_emails` lemmas -/

/-- Every output of the `clean_emails` loop is the normalisation of some
input element. -/
theorem cleanGo_mem :
    ∀ (raw : List (List Char)) (seen : List (List Char)) (x : List Char),
      x ∈ cleanGo seen raw → ∃ e ∈ raw, x = normalizeEmail e := by
  intro raw
  induction raw with
  | nil => intro seen x hx; simp [cleanGo] at hx
  | cons e rest ih =>
    intro seen x hx
    unfold cleanGo at hx
    split at hx
    · obtain ⟨e', he', hx'⟩ := ih seen x hx
      exact ⟨e', List.mem_cons_of_mem e he', hx'⟩
    · split at hx
      · obtain ⟨e', he', hx'⟩ := ih seen x hx
        exact ⟨e', List.mem_cons_of_mem e he', hx'⟩
      · rcases List.mem_cons.mp hx with hx | hx
        · exact ⟨e, List.mem_cons_self e rest, hx⟩
        · obtain ⟨e', he', hx'⟩ := ih _ x hx
          exact ⟨e', List.mem_cons_of_mem e he', hx'⟩

/-! ## `dedupFirst` lemmas -/

theorem dedupFirst_sublist {α : Type} [DecidableEq α] :
    ∀ (n : Nat) (l : List α), l.length ≤ n → List.Sublist (dedupFirst l) l := by
  intro n
  induction n with
  | zero =>
    intro l hl
    rw [Nat.le_zero, List.length_eq_zero] at hl
    subst hl
    simp [dedupFirst]
  | succ k ih =>
    intro l hl
    cases l with
    | nil => simp [dedupFirst]
    | cons a t =>
      rw [show dedupFirst (a :: t) = a :: dedupFirst (t.filter (fun x => x ≠ a))
        from by rw [dedupFirst]]
      apply List.Sublist.cons₂
      refine List.Sublist.trans (ih (t.filter (fun x => x ≠ a)) ?_) (List.filter_sublist t)
      have := List.length_filter_le (fun x => decide (x ≠ a)) t
      simp at hl
      omega

theorem mem_dedupFirst {α : Type} [DecidableEq α] {l : List α} {x : α}
    (h : x ∈ dedupFirst l) : x ∈ l :=
  (dedupFirst_sublist l.length l (Nat.le_refl _)).subset h

theorem dedupFirst_nodup {α : Type} [DecidableEq α] :
    ∀ (n : Nat) (l : List α), l.length ≤ n → (dedupFirst l).Nodup := by
  intro n
  induction n with
  | zero =>
    intro l hl
    rw [Nat.le_zero, List.length_eq_zero] at hl
    subst hl
    simp [dedupFirst]
  | succ k ih =>
    intro l hl
    cases l with
    | nil => simp [dedupFirst]
    | cons a t =>
      rw [show dedupFirst (a :: t) = a :: dedupFirst (t.filter (fun x => x ≠ a))
        from by rw [dedupFirst]]
      refine List.nodup_cons.mpr ⟨?_, ?_⟩
      · intro hmem
        have := List.of_mem_filter (mem_dedupFirst hmem)
        simp at this
      · apply ih
        have := List.length_filter_le (fun x => decide (x ≠ a)) t
        simp at hl
        omega

/-- The `seen`-set loop of `clean_emails` computes first-occurrence
deduplication of the denylist-filtered normalised input. -/
theorem cleanGo_eq_dedupFirst :
    ∀ (raw : List (List Char)) (seen : List (List Char)),
      cleanGo seen raw =
        dedupFirst ((raw.map normalizeEmail).filter
          (fun e => decide (domainOf e ∉ SKIP_DOMAINS) && decide (e ∉ seen))) := by
  intro raw
  induction raw with
  | nil => intro seen; simp [cleanGo, dedupFirst]
  | cons e rest ih =>
    intro seen
    unfold cleanGo
    simp only [List.map_cons, List.filter_cons]
    by_cases h1 : domainOf (normalizeEmail e) ∈ SKIP_DOMAINS
    · have hc : (decide (domainOf (normalizeEmail e) ∉ SKIP_DOMAINS) &&
        decide (normalizeEmail e ∉ seen)) = false := by simp [h1]
      rw [if_pos h1, hc]
      simpa using ih seen
    · by_cases h2 : normalizeEmail e ∈ seen
      · have hc : (decide (domainOf (normalizeEmail e) ∉ SKIP_DOMAINS) &&
          decide (normalizeEmail e ∉ seen)) = false := by simp [h2]
        rw [if_neg h1, if_pos h2, hc]
        simpa using ih seen
      · have hc : (decide (domainOf (normalizeEmail e) ∉ SKIP_DOMAINS) &&
          decide (normalizeEmail e ∉ seen)) = true := by simp [h1, h2]
        rw [if_neg h1, if_neg h2, hc, if_pos rfl]
        rw [show ∀ l : List (List Char), dedupFirst (normalizeEmail e :: l) =
          normalizeEmail e :: dedupFirst (l.filter (fun x => x ≠ normalizeEmail e))
          from fun l => by rw [dedupFirst]]
        rw [ih (normalizeEmail e :: seen), List.filter_filter]
        have hfeq : List.filter (fun a => decide (a ≠ normalizeEmail e) &&
            (decide (domainOf a ∉ SKIP_DOMAINS) && decide (a ∉ seen)))
            (rest.map normalizeEmail) =
          List.filter (fun a => decide (domainOf a ∉ SKIP_DOMAINS) &&
            decide (a ∉ normalizeEmail e :: seen)) (rest.map normalizeEmail) := by
          apply List.filter_congr
          intro x _
          by_cases hd : domainOf x ∈ SKIP_DOMAINS <;>
            by_cases hx1 : x = normalizeEmail e <;>
            by_cases hx2 : x ∈ seen <;>
            simp [hd, hx1, hx2]
        rw [hfeq]

/-- `clean_emails` with an empty `seen` set is first-occurrence
deduplication after the denylist filter. -/
theorem clean_emails_eq_dedupFirst (raw : List (List Char)) :
    clean_emails raw =
      dedupFirst ((raw.map normalizeEmail).filter
        (fun e => decide (domainOf e ∉ SKIP_DOMAINS))) := by
  unfold clean_emails
  rw [cleanGo_eq_dedupFirst raw []]
  apply congrArg
  apply List.filter_congr
  intro x _
  simp

/-! ## Claim theorems for the Email Extractor -/

/-- **C3**: for every input text, `extract_emails` returns no duplicate
addresses and no address whose domain (the substring after the last `@`)
is a denylist entry; moreover the output is exactly the first-occurrence
deduplication of the denylist-filtered normalised match sequence, so the
first occurrence wins and the order of first appearance in the text is
preserved. -/
theorem extract_emails_nodup_denylist_first_occurrence (s : String) :
    (extract_emails s).Nodup ∧
    (∀ e ∈ extract_emails s, domainOf e.data ∉ SKIP_DOMAINS) ∧
    clean_emails (findEmails s.data) =
      dedupFirst (((findEmails s.data).map normalizeEmail).filter
        (fun e => decide (domainOf e ∉ SKIP_DOMAINS))) := by
  have hmain := clean_emails_eq_dedupFirst (findEmails s.data)
  refine ⟨?_, ?_, hmain⟩
  · unfold extract_emails
    apply List.Nodup.map
    · intro a b hab
      injection hab
    · rw [hmain]
      exact dedupFirst_nodup _ _ (Nat.le_refl _)
  · intro e he
    unfold extract_emails at he
    obtain ⟨x, hx, rfl⟩ := List.mem_map.mp he
    rw [hmain] at hx
    have hp := List.of_mem_filter (mem_dedupFirst hx)
    simp only [decide_eq_true_eq] at hp
    exact hp

/-- **C4**: every address returned by `extract_emails` is entirely
lowercase (each of its characters is fixed by lowering) and satisfies the
email shape rule. -/
theorem extract_emails_lowercase_and_shape (s : String) :
    ∀ e ∈ extract_emails s,
      (∀ c ∈ e.data, Char.toLower c = c) ∧ EmailShape e.data := by
  intro e he
  unfold extract_emails at he
  obtain ⟨x, hx, rfl⟩ := List.mem_map.mp he
  obtain ⟨m, hm, rfl⟩ := cleanGo_mem _ _ _ hx
  obtain ⟨hne, hsh, hfix⟩ := normalizeEmail_of_shape (findEmails_shape hm)
  constructor
  · show ∀ c ∈ normalizeEmail m, Char.toLower c = c
    rw [hne]
    exact hfix
  · show EmailShape (normalizeEmail m)
    rw [hne]
    exact hsh

/-- Witness for C4 at the spec's own scenario input. -/
theorem extract_emails_lowercase_and_shape_witness :
    (∀ c ∈ ("sales@shop.com" : String).data, Char.toLower c = c) ∧
      EmailShape ("sales@shop.com" : String).data :=
  extract_emails_lowercase_and_shape
    "Contact us at Sales@Shop.com or support@gmail.com" "sales@shop.com" (by decide)

/-- **C5**: the spec scenario: `Sales@Shop.com` is case-folded and
`support@gmail.com` is removed by the denylist. -/
theorem extract_emails_scenario_gmail_filtered :
    extract_emails "Contact us at Sales@Shop.com or support@gmail.com" =
      ["sales@shop.com"] := by
  decide

/-! ## Website Scraper lemmas -/

/-- The record emitted for one URL carries that URL as its source, and a
record is emitted exactly when the primary fetch got a response or
raised (not when it returned `None`). -/
theorem processUrl_sources (f : Oracle) (url : String) :
    (processUrl f url).1.toList.map (fun r => r.source) =
      if f url 15 = FetchResult.noResp then [] else [url] := by
  unfold processUrl
  cases hf : f url 15 with
  | exn => simp [mkRecord]
  | noResp => simp
  | page content =>
    dsimp only
    split
    · cases f (contactUrl url) 10 <;> simp [mkRecord]
    · simp [mkRecord]

/-- Sources of the records of a batch: one per non-blank URL whose fetch
did not return `None`, in input order. -/
theorem scrape_sourcesAux (f : Oracle) : ∀ urls : List String,
    (scrape_websitesT f urls).1.map (fun r => r.source) =
      (urls.map strS).filter
        (fun u => decide (u ≠ "") && decide (f u 15 ≠ FetchResult.noResp)) := by
  intro urls
  induction urls with
  | nil => rfl
  | cons u rest ih =>
    unfold scrape_websitesT
    simp only [List.map_cons, List.filter_cons]
    by_cases hu : strS u = ""
    · rw [if_pos hu]
      have hc : (decide (strS u ≠ "") && decide (f (strS u) 15 ≠ FetchResult.noResp)) = false := by
        simp [hu]
      rw [hc]
      simpa using ih
    · rw [if_neg hu]
      rw [List.map_append, processUrl_sources, ih]
      by_cases hn : f (strS u) 15 = FetchResult.noResp
      · have hc : (decide (strS u ≠ "") && decide (f (strS u) 15 ≠ FetchResult.noResp)) = false := by
          simp [hn]
        rw [hc, if_pos hn]
        simp
      · have hc : (decide (strS u ≠ "") && decide (f (strS u) 15 ≠ FetchResult.noResp)) = true := by
          simp [hu, hn]
        rw [hc, if_neg hn]
        simp

/-- Every record in a batch is the output of `processUrl` for some URL. -/
theorem scrape_mem (f : Oracle) : ∀ (urls : List String) (r : LeadRecord),
    r ∈ (scrape_websitesT f urls).1 → ∃ u, (processUrl f u).1 = some r := by
  intro urls
  induction urls with
  | nil => intro r hr; simp [scrape_websitesT] at hr
  | cons u rest ih =>
    intro r hr
    unfold scrape_websitesT at hr
    split at hr
    · exact ih r hr
    · rw [List.mem_append] at hr
      rcases hr with hr | hr
      · refine ⟨strS u, ?_⟩
        cases hpu : (processUrl f (strS u)).1 with
        | none => rw [hpu] at hr; simp at hr
        | some x =>
          rw [hpu] at hr
          simp at hr
          rw [hr]
      · exact ih r hr

/-- Every emitted record is built by the record literal: its `emails`
field is a joined email list and its `email_count` that list's length. -/
theorem processUrl_wf (f : Oracle) (url : String) (r : LeadRecord)
    (h : (processUrl f url).1 = some r) : ∃ es, r = mkRecord r.source es := by
  unfold processUrl at h
  split at h
  · simp at h; subst h; exact ⟨_, rfl⟩
  · simp at h
  · split at h
    · split at h <;> simp at h <;> subst h
      · exact ⟨_, rfl⟩
      · exact ⟨_, rfl⟩
      · exact ⟨_, rfl⟩
    · simp at h; subst h; exact ⟨_, rfl⟩

/-- At most one record per input URL. -/
theorem scrape_length_le (f : Oracle) : ∀ urls : List String,
    (scrape_websitesT f urls).1.length ≤ urls.length := by
  intro urls
  induction urls with
  | nil => simp [scrape_websitesT]
  | cons u rest ih =>
    unfold scrape_websitesT
    split
    · exact Nat.le_succ_of_le ih
    · rw [List.length_append]
      have h1 : (processUrl f (strS u)).1.toList.length ≤ 1 := by
        cases (processUrl f (strS u)).1 <;> simp
      simp only [List.length_cons]
      omega

/-! ## Claim theorems for the Website Scraper -/

/-- **C1** counterexample: a non-blank URL whose fetch yields no content
(`fetcher.get` returns `None`) produces *no* Lead Record at all — the loop
prints `[skip]` and `continue`s without appending — so the batch for the
single dead URL is empty rather than the one empty-email record the claim
requires. -/
theorem scrape_skips_unresponsive_url :
    scrape_websites fAllNone ["http://dead-url.invalid"] = [] ∧
      strS "http://dead-url.invalid" = "http://dead-url.invalid" ∧
      "http://dead-url.invalid" ≠ ("" : String) := by
  decide

/-- **C1** (amended): every non-blank input URL whose primary fetch either
raises or returns a page yields exactly one Lead Record, in input order;
a URL whose fetch returns `None` is skipped and yields no record. -/
theorem scrape_one_record_per_responsive_url (f : Oracle) (urls : List String) :
    (scrape_websites f urls).map (fun r => r.source) =
      (urls.map strS).filter
        (fun u => decide (u ≠ "") && decide (f u 15 ≠ FetchResult.noResp)) :=
  scrape_sourcesAux f urls

/-- **C6**: `scrape_websites` is total over every fetch oracle (per-URL
exceptions are caught: modelled by the `exn` branch producing a record
rather than aborting), every record it returns is the record literal of
some email list with `email_count` that list's length, and even when every
fetch raises the batch still emits one record per non-blank URL. -/
theorem scrape_never_raises_and_counts (f : Oracle) (urls : List String) :
    (∀ r ∈ scrape_websites f urls,
      ∃ es, r = mkRecord r.source es ∧ r.email_count = es.length) ∧
    (scrape_websites fAllExn urls).map (fun r => r.source) =
      (urls.map strS).filter (fun u => decide (u ≠ "")) := by
  constructor
  · intro r hr
    obtain ⟨u, hu⟩ := scrape_mem f urls r hr
    obtain ⟨es, hes⟩ := processUrl_wf f u r hu
    refine ⟨es, hes, ?_⟩
    rw [hes]
    rfl
  · rw [show scrape_websites fAllExn urls = (scrape_websitesT fAllExn urls).1 from rfl,
      scrape_sourcesAux]
    apply List.filter_congr
    intro x _
    simp [fAllExn]

/-- **C7**: within a batch, the contact-page fallback fetch (at
`url.rstrip("/") + "/contact"`, with the shorter timeout 10) happens if
and only if the primary fetch returned a page, the extractor found no
emails in it, and the URL does not already end in `/contact` up to
trailing slashes; when the fallback fetch returns a page the record's
emails come from that page, and when it raises the exception is swallowed
and the record is emitted with empty emails. -/
theorem contact_fallback_exactly_when (f : Oracle) (url : String)
    (htrim : strS url = url) (hne : url ≠ "") :
    ((contactUrl url, 10) ∈ (scrape_websitesT f [url]).2 ↔
      ∃ c, f url 15 = FetchResult.page c ∧ extract_emails c = [] ∧
        endsWithContact url = false) ∧
    (∀ c c2, f url 15 = FetchResult.page c → extract_emails c = [] →
      endsWithContact url = false → f (contactUrl url) 10 = FetchResult.page c2 →
      scrape_websites f [url] = [mkRecord url (extract_emails c2)]) ∧
    (∀ c, f url 15 = FetchResult.page c → extract_emails c = [] →
      endsWithContact url = false → f (contactUrl url) 10 = FetchResult.exn →
      scrape_websites f [url] = [mkRecord url []]) := by
  have hT : scrape_websitesT f [url] =
      ((processUrl f url).1.toList, (processUrl f url).2) := by
    unfold scrape_websitesT
    rw [htrim, if_neg hne]
    unfold scrape_websitesT
    simp
  have hCne : (contactUrl url, 10) ≠ (url, 15) := by
    intro hcp
    have := congrArg Prod.snd hcp
    simp at this
  refine ⟨?_, ?_, ?_⟩
  · rw [hT]
    unfold processUrl
    cases hf : f url 15 with
    | exn =>
      simp only [List.mem_singleton]
      constructor
      · intro hcp; exact absurd hcp hCne
      · rintro ⟨c, hc, -⟩; cases hc
    | noResp =>
      simp only [List.mem_singleton]
      constructor
      · intro hcp; exact absurd hcp hCne
      · rintro ⟨c, hc, -⟩; cases hc
    | page content =>
      dsimp only
      split
      case isTrue hcond =>
        constructor
        · intro _; exact ⟨content, rfl, hcond.1, hcond.2⟩
        · intro _
          cases f (contactUrl url) 10 <;> simp
      case isFalse hcond =>
        constructor
        · intro hcp
          simp only [List.mem_singleton] at hcp
          exact absurd hcp hCne
        · rintro ⟨c, hc, h1, h2⟩
          cases hc
          exact absurd ⟨h1, h2⟩ hcond
  · intro c c2 h1 h2 h3 h4
    rw [show scrape_websites f [url] = (scrape_websitesT f [url]).1 from rfl, hT]
    unfold processUrl
    rw [h1]
    dsimp only
    rw [if_pos ⟨h2, h3⟩, h4]
    rfl
  · intro c h1 h2 h3 h4
    rw [show scrape_websites f [url] = (scrape_websitesT f [url]).1 from rfl, hT]
    unfold processUrl
    rw [h1]
    dsimp only
    rw [if_pos ⟨h2, h3⟩, h4]
    rfl

/-- Witness for C7: an email-free homepage whose contact page carries one
address. -/
theorem contact_fallback_exactly_when_witness :
    (contactUrl "http://a.com", 10) ∈ (scrape_websitesT fContactDemo ["http://a.com"]).2 ↔
      ∃ c, fContactDemo "http://a.com" 15 = FetchResult.page c ∧ extract_emails c = [] ∧
        endsWithContact "http://a.com" = false :=
  (contact_fallback_exactly_when fContactDemo "http://a.com" (by decide) (by decide)).1

/-! ## Search Collector lemmas -/

/-- When every search-page fetch succeeds, the pagination loop fetches one
page per remaining iteration, at consecutive offsets, regardless of how
many links have been collected. -/
theorem googleLoop_trace_success (g : SearchOracle) (query : String) (limit : Nat)
    (hg : ∀ u, ∃ hrefs, g u 20 = SearchResult.page hrefs) :
    ∀ (n pn : Nat) (acc : List String),
      (googleLoop g query limit n pn acc).2 =
        (List.range n).map (fun i => (searchUrl query ((pn + i) * 10), 20)) := by
  intro n
  induction n with
  | zero => intro pn acc; simp [googleLoop]
  | succ k ih =>
    intro pn acc
    obtain ⟨hrefs, hgr⟩ := hg (searchUrl query (pn * 10))
    unfold googleLoop
    rw [hgr]
    dsimp only
    rw [ih (pn + 1) (collectLinks limit acc hrefs)]
    rw [List.range_succ_eq_map, List.map_cons, List.map_map]
    congr 1
    apply List.map_congr_left
    intro i _
    simp only [Function.comp]
    have harith : (pn + 1 + i) * 10 = (pn + i.succ) * 10 := by omega
    rw [harith]

/-! ## Claim theorems for the Search Collector -/

/-- **C2** counterexample: with `limit = 11` and a first search page that
already supplies 11 qualifying links, the running collection reaches the
limit during the first page, yet the pagination loop still fetches a
second search page (`pages_needed = 11 // 10 + 1 = 2` and the outer loop
has no limit check) — so reaching the limit does *not* stop the outer
pagination. -/
theorem google_fetches_next_page_after_limit :
    (collectLinks 11 [] elevenLinks).length = 11 ∧
    (googleSearchTrace gEleven "q" 11).length = 2 := by
  decide

/-- **C2** (amended): once the running collection reaches `limit`, link
collection on the current page stops (the inner loop breaks right after
the append that reached it), but the outer pagination continues: when
every fetch succeeds, all `limit // 10 + 1` search pages are fetched, at
offsets `0, 10, 20, …`, regardless of when the limit is reached. -/
theorem google_limit_stops_collection_not_pagination (g : SearchOracle)
    (query : String) (limit : Nat)
    (hg : ∀ u, ∃ hrefs, g u 20 = SearchResult.page hrefs) :
    googleSearchTrace g query limit =
      (List.range (limit / 10 + 1)).map (fun pn => (searchUrl query (pn * 10), 20)) ∧
    (∀ (acc : List String) (h : String) (t : List String),
      limit ≤ (collectStep acc h).length →
      collectLinks limit acc (h :: t) = collectStep acc h) := by
  constructor
  · unfold googleSearchTrace
    rw [googleLoop_trace_success g query limit hg (limit / 10 + 1) 0 []]
    simp
  · intro acc h t hlen
    unfold collectLinks
    rw [if_pos hlen]

/-- Witness for C2 (amended): the empty-pages oracle at `limit = 0`. -/
theorem google_limit_stops_collection_not_pagination_witness :
    googleSearchTrace gEmptyPages "q" 0 =
      (List.range (0 / 10 + 1)).map (fun pn => (searchUrl "q" (pn * 10), 20)) :=
  (google_limit_stops_collection_not_pagination gEmptyPages "q" 0
    (fun _ => ⟨[], rfl⟩)).1

/-- **C8** counterexample: `search("shoes", limit=15)` against a first
page holding 15 qualifying links and a second page starting with one more:
the running collection ends with 16 links, refuting "collects at most 15
links" (each page past the limit appends one more link before the inner
loop's break fires). -/
theorem google_search_collects_sixteen :
    (googleCollected gOverflow "shoes" 15).length = 16 := by
  decide

/-- **C8** (amended): `search("shoes", limit=15)` computes
`pages_needed = 15 // 10 + 1 = 2` and, when both fetches succeed, performs
exactly the two search requests at offsets 0 and 10; the collection may
exceed 15 links, but exactly its first 15 links (`[:limit]`) are handed to
the Website Scraper. -/
theorem google_search_two_pages_truncated (g : SearchOracle) (f : Oracle)
    (h0 h1 : List String)
    (hg0 : g (searchUrl "shoes" 0) 20 = SearchResult.page h0)
    (hg1 : g (searchUrl "shoes" 10) 20 = SearchResult.page h1) :
    googleSearchTrace g "shoes" 15 =
      [(searchUrl "shoes" 0, 20), (searchUrl "shoes" 10, 20)] ∧
    googleCollected g "shoes" 15 = collectLinks 15 (collectLinks 15 [] h0) h1 ∧
    scrape_google_search g f "shoes" 15 =
      scrape_websites f ((collectLinks 15 (collectLinks 15 [] h0) h1).take 15) ∧
    ((collectLinks 15 (collectLinks 15 [] h0) h1).take 15).length ≤ 15 := by
  have hloop : googleLoop g "shoes" 15 (15 / 10 + 1) 0 [] =
      (collectLinks 15 (collectLinks 15 [] h0) h1,
        [(searchUrl "shoes" 0, 20), (searchUrl "shoes" 10, 20)]) := by
    show googleLoop g "shoes" 15 (Nat.succ (Nat.succ Nat.zero)) 0 [] = _
    unfold googleLoop
    rw [show searchUrl "shoes" (0 * 10) = searchUrl "shoes" 0 from rfl, hg0]
    dsimp only
    unfold googleLoop
    rw [show searchUrl "shoes" ((0 + 1) * 10) = searchUrl "shoes" 10 from rfl, hg1]
    dsimp only
    unfold googleLoop
    rfl
  refine ⟨?_, ?_, ?_, ?_⟩
  · unfold googleSearchTrace
    rw [hloop]
  · unfold googleCollected
    rw [hloop]
  · unfold scrape_google_search scrape_google_searchT googleCollected
    rw [hloop]
    rfl
  · rw [List.length_take]
    exact Nat.min_le_left _ _

/-- Witness for C8 (amended): the oracle serving eleven links per page. -/
theorem google_search_two_pages_truncated_witness :
    googleSearchTrace gEleven "shoes" 15 =
      [(searchUrl "shoes" 0, 20), (searchUrl "shoes" 10, 20)] ∧
    googleCollected gEleven "shoes" 15 =
      collectLinks 15 (collectLinks 15 [] elevenLinks) elevenLinks ∧
    scrape_google_search gEleven fAllExn "shoes" 15 =
      scrape_websites fAllExn
        ((collectLinks 15 (collectLinks 15 [] elevenLinks) elevenLinks).take 15) ∧
    ((collectLinks 15 (collectLinks 15 [] elevenLinks) elevenLinks).take 15).length ≤ 15 :=
  google_search_two_pages_truncated gEleven fAllExn elevenLinks elevenLinks rfl rfl

/-- **C10**: for every limit and every behaviour of the search and website
fetchers, `scrape_google_search` returns at most `limit` Lead Records: the
collected links are truncated with `[:limit]` before being handed to the
Website Scraper, which emits at most one record per URL. -/
theorem google_search_at_most_limit_records (g : SearchOracle) (f : Oracle)
    (query : String) (limit : Nat) :
    (scrape_google_search g f query limit).length ≤ limit := by
  unfold scrape_google_search scrape_google_searchT
  refine Nat.le_trans (scrape_length_le f _) ?_
  rw [List.length_take]
  exact Nat.min_le_left _ _

/-! ## Claim theorem for the Command Interface -/

/-- **C9**: whenever the argument required by the selected source mode is
missing (Python-falsy), `main` reports a descriptive error and returns
before any fetch is performed (empty fetch trace) and without writing any
output file (the `argError` outcome carries no write). -/
theorem cli_missing_arg_no_fetch_no_write (f : Oracle) (g : SearchOracle)
    (readFile : String → Option String) (args : Args) (h : missingModeArg args) :
    (∃ msg, (mainRun f g readFile args).1 = MainOutcome.argError msg) ∧
    (mainRun f g readFile args).2 = [] := by
  obtain ⟨hs, ha⟩ | ⟨hs, ha⟩ | ⟨hs, ha⟩ := h
  · unfold mainRun
    rw [hs]
    rcases ha with ha | ha <;> rw [ha] <;> exact ⟨⟨_, rfl⟩, rfl⟩
  · unfold mainRun
    rw [hs]
    rcases ha with ha | ha <;> rw [ha]
    · exact ⟨⟨_, rfl⟩, rfl⟩
    · dsimp only
      rw [if_pos rfl]
      exact ⟨⟨_, rfl⟩, rfl⟩
  · unfold mainRun
    rw [hs]
    rcases ha with ha | ha <;> rw [ha]
    · exact ⟨⟨_, rfl⟩, rfl⟩
    · dsimp only
      rw [if_pos rfl]
      exact ⟨⟨_, rfl⟩, rfl⟩

/-- Witness for C9: `--source google` without `--query`. -/
theorem cli_missing_arg_no_fetch_no_write_witness :
    (∃ msg, (mainRun fAllExn gEmptyPages (fun _ => none) argsNoQuery).1 =
      MainOutcome.argError msg) ∧
    (mainRun fAllExn gEmptyPages (fun _ => none) argsNoQuery).2 = [] :=
  cli_missing_arg_no_fetch_no_write fAllExn gEmptyPages (fun _ => none) argsNoQuery
    (Or.inr (Or.inl ⟨rfl, Or.inl rfl⟩))

end Scraper
